import Mathlib

/-!
Shallow embedding of the configuration parser, tree builder, schema loader,
validator and JSON serializer found in src/src/main.rs, together with proofs
about the claims of the specification.

File I/O is abstracted away: a file is a list of its lines.  Rust `HashMap`s
are embedded as association lists whose observable behaviour (get / overwriting
insert) matches the `HashMap` API used by the source; iteration order of a
`HashMap` is arbitrary in Rust, so list order here is one admissible order.
A Rust panic (the `.expect` call in `insert_config_value`) is embedded as
`Option.none` propagating outward: once it fires, nothing further happens in
the process.
-/

/-- The `ConfigValue` enum of the source: `String`, `Map`, `Bool`.
The `HashMap<String, ConfigValue>` payload is an association list. -/
inductive ConfigValue where
  | str : String → ConfigValue
  | map : List (String × ConfigValue) → ConfigValue
  | bool : Bool → ConfigValue

/-- ASCII / regex whitespace class: U+0009 .. U+000D and the space.
On the ASCII range this coincides with Rust `char::is_whitespace` and with the
regex class used by the source. -/
def isWs (c : Char) : Bool := c == ' ' || (9 ≤ c.toNat && c.toNat ≤ 13)

/-- Character class of the key group of `CONFIG_REGEX`: `[a-zA-Z0-9._-]`. -/
def isKeyChar (c : Char) : Bool :=
  ('a' ≤ c && c ≤ 'z') || ('A' ≤ c && c ≤ 'Z') || ('0' ≤ c && c ≤ '9') ||
  c == '.' || c == '_' || c == '-'

/-- Trim whitespace from both ends of a character list (Rust `str::trim`). -/
def trimChars (cs : List Char) : List Char :=
  ((cs.dropWhile isWs).reverse.dropWhile isWs).reverse

/-- `COMMENT_REGEX` = `^\s*#`: after optional leading whitespace, a `#`. -/
def commentLine (cs : List Char) : Bool :=
  match cs.dropWhile isWs with
  | '#' :: _ => true
  | _ => false

/-- The line classifier of `parse_config_file` / `load_schema`: trim the line,
skip comment and blank lines, then match
`CONFIG_REGEX` = `^\s*([a-zA-Z0-9._-]+)\s*=\s*(.+?)\s*$`.
The key character class is disjoint from whitespace and `=`, so the greedy
key group is the maximal key-char prefix; the value group is the text after
`=` stripped of surrounding whitespace (the source trims the capture again,
which is the identity).  A non-matching line yields `none` (skipped). -/
def parseLine (line : String) : Option (String × String) :=
  let t := trimChars line.data
  if t.isEmpty then none
  else if commentLine t then none
  else
    let key := t.takeWhile isKeyChar
    if key.isEmpty then none
    else
      match (t.dropWhile isKeyChar).dropWhile isWs with
      | '=' :: after =>
        let v := trimChars after
        if v.isEmpty then none else some (String.mk key, String.mk v)
      | _ => none

/-- Lower one ASCII uppercase letter (Rust `u8::to_ascii_lowercase`). -/
def asciiLower (c : Char) : Char :=
  if 'A' ≤ c ∧ c ≤ 'Z' then Char.ofNat (c.toNat + 32) else c

/-- Rust `str::eq_ignore_ascii_case`. -/
def eqIgnoreAsciiCase (a b : String) : Bool :=
  a.data.map asciiLower == b.data.map asciiLower

/-- The value coercion of `parse_config_file`: case-insensitive `true`/`false`
become `Bool`, everything else stays a `String` verbatim. -/
def coerceValue (raw : String) : ConfigValue :=
  if eqIgnoreAsciiCase raw "true" || eqIgnoreAsciiCase raw "false" then
    ConfigValue.bool (eqIgnoreAsciiCase raw "true")
  else
    ConfigValue.str raw

/-- `HashMap::get` on the association-list embedding. -/
def assocGet {α : Type} : List (String × α) → String → Option α
  | [], _ => none
  | (k, v) :: rest, key => if k = key then some v else assocGet rest key

/-- `HashMap::insert` (overwrite semantics) on the association-list embedding. -/
def assocSet {α : Type} : List (String × α) → String → α → List (String × α)
  | [], key, value => [(key, value)]
  | (k, v) :: rest, key, value =>
    if k = key then (k, value) :: rest else (k, v) :: assocSet rest key value

/-- Helper for `str::split('.')`. -/
def splitDotsAux : List Char → List Char → List String
  | [], acc => [String.mk acc.reverse]
  | c :: rest, acc =>
    if c == '.' then String.mk acc.reverse :: splitDotsAux rest []
    else splitDotsAux rest (c :: acc)

/-- Rust `str::split('.')`: always a non-empty list of (possibly empty)
segments, e.g. `a..b` gives `[a, , b]` and `a.` gives `[a, ]`. -/
def splitDots (s : String) : List String := splitDotsAux s.data []

/-- The descending loop of `insert_config_value` over the segment list:
for every segment but the last, get-or-insert a `Map` child and require it to
be a `Map` (`as_map_mut().expect` — a non-map child is the type-conflict
panic, embedded as `none`); the last segment is overwritten with the value. -/
def insertGo : List String → List (String × ConfigValue) → ConfigValue →
    Option (List (String × ConfigValue))
  | [], _, _ => none
  | [k], cfg, v => some (assocSet cfg k v)
  | k :: k2 :: rest, cfg, v =>
    match (assocGet cfg k).getD (ConfigValue.map []) with
    | ConfigValue.map m =>
      match insertGo (k2 :: rest) m v with
      | some m2 => some (assocSet cfg k (ConfigValue.map m2))
      | none => none
    | _ => none

/-- `insert_config_value`: split the dotted key and descend.  `none` is the
type-conflict panic of the source. -/
def insert_config_value (cfg : List (String × ConfigValue)) (key : String)
    (value : ConfigValue) : Option (List (String × ConfigValue)) :=
  insertGo (splitDots key) cfg value

/-- Dotted-path read-back over the segment list, descending through `Map`
nodes segment by segment. -/
def lookupGo : List String → List (String × ConfigValue) → Option ConfigValue
  | [], _ => none
  | [k], cfg => assocGet cfg k
  | k :: k2 :: rest, cfg =>
    match assocGet cfg k with
    | some (ConfigValue.map m) => lookupGo (k2 :: rest) m
    | _ => none

/-- Modelled from the spec: the dotted-path lookup the specification describes
for the validator ("look up `key` as a dotted path into the tree, traversing
nested Map nodes the same way the Tree Builder descends") and for reading a
tree back at a dotted path.  The source itself contains no such traversal. -/
def lookupDottedSpec (cfg : List (String × ConfigValue)) (key : String) :
    Option ConfigValue :=
  lookupGo (splitDots key) cfg

/-- The line loop of `parse_config_file` with its accumulated config map. -/
def parseConfigGo : List String → List (String × ConfigValue) →
    Option (List (String × ConfigValue))
  | [], cfg => some cfg
  | line :: rest, cfg =>
    match parseLine line with
    | none => parseConfigGo rest cfg
    | some (k, raw) =>
      match insert_config_value cfg k (coerceValue raw) with
      | none => none
      | some cfg2 => parseConfigGo rest cfg2

/-- `parse_config_file`, with the file given as its list of lines.  `none` is
the type-conflict panic escaping the function. -/
def parse_config_file (lines : List String) :
    Option (List (String × ConfigValue)) :=
  parseConfigGo lines []

/-- The line loop of `load_schema` with its accumulated schema map. -/
def loadSchemaGo : List String → List (String × String) →
    List (String × String)
  | [], schema => schema
  | line :: rest, schema =>
    match parseLine line with
    | some (k, t) => loadSchemaGo rest (assocSet schema k t)
    | none => loadSchemaGo rest schema

/-- `load_schema`, with the file given as its list of lines: the same
`CONFIG_REGEX` pattern as the config parser, the captured value stored
verbatim as the expected-type token.  It cannot fail on a readable file. -/
def load_schema (lines : List String) : List (String × String) :=
  loadSchemaGo lines []

/-- The `match (expected_type.as_str(), value)` of `validate_config`:
`string`/`bool`/`map` against the matching variant, everything else a
mismatch. -/
def typeMatches (expected : String) (v : ConfigValue) : Bool :=
  match v with
  | ConfigValue.str _ => expected == "string"
  | ConfigValue.bool _ => expected == "bool"
  | ConfigValue.map _ => expected == "map"

/-- One printed diagnostic of `validate_config`: the missing-key warning
(`println!`) or the type-mismatch error (`eprintln!`). -/
inductive Diagnostic where
  | missingKey : String → Diagnostic
  | typeMismatch : String → String → Diagnostic
deriving DecidableEq

/-- `validate_config`: for each schema entry, a plain `config.get(key)` on the
top-level map; a missing key prints a warning and leaves `valid` untouched, a
variant mismatch prints an error and clears `valid`.  Returns the final flag
together with the printed diagnostics in iteration order. -/
def validate_config (cfg : List (String × ConfigValue)) :
    List (String × String) → Bool × List Diagnostic
  | [] => (true, [])
  | (key, ety) :: rest =>
    match assocGet cfg key with
    | some v =>
      if typeMatches ety v then validate_config cfg rest
      else (false, Diagnostic.typeMismatch key ety :: (validate_config cfg rest).2)
    | none =>
      ((validate_config cfg rest).1,
       Diagnostic.missingKey key :: (validate_config cfg rest).2)

/-- `serde_json::Value`: all six variants, so that never producing
`null`, numbers or arrays is expressible. -/
inductive JsonValue where
  | null : JsonValue
  | bool : Bool → JsonValue
  | num : Int → JsonValue
  | str : String → JsonValue
  | arr : List JsonValue → JsonValue
  | obj : List (String × JsonValue) → JsonValue

mutual

/-- The per-value branch of `format_as_json`. -/
def formatValue : ConfigValue → JsonValue
  | ConfigValue.str s => JsonValue.str s
  | ConfigValue.bool b => JsonValue.bool b
  | ConfigValue.map m => JsonValue.obj (formatMembers m)

/-- The member loop of `format_as_json`: one inserted member per map entry. -/
def formatMembers : List (String × ConfigValue) → List (String × JsonValue)
  | [] => []
  | (k, v) :: rest => (k, formatValue v) :: formatMembers rest

end

/-- `format_as_json`: the whole config map as a JSON object. -/
def format_as_json (cfg : List (String × ConfigValue)) : JsonValue :=
  JsonValue.obj (formatMembers cfg)

mutual

/-- `true` iff a JSON value is built from objects, strings and booleans only. -/
def jsonRestricted : JsonValue → Bool
  | JsonValue.null => false
  | JsonValue.num _ => false
  | JsonValue.arr _ => false
  | JsonValue.bool _ => true
  | JsonValue.str _ => true
  | JsonValue.obj ms => jsonRestrictedMembers ms

/-- `jsonRestricted` over object members. -/
def jsonRestrictedMembers : List (String × JsonValue) → Bool
  | [] => true
  | (_, j) :: rest => jsonRestricted j && jsonRestrictedMembers rest

end

/-- What the file loop of `main` observably produces for one file: the
pretty-printed JSON on validation success, or the validation-failure error. -/
inductive FileOutcome where
  | success : JsonValue → FileOutcome
  | invalid : FileOutcome

/-- The file loop of `main`: each collected file is parsed, validated and
printed in turn.  The `.expect` panic inside `parse_config_file` terminates
the whole process, so on a type conflict the loop stops and the remaining
files produce nothing (the panicking file produces no outcome either). -/
def run_files (schema : List (String × String)) :
    List (List String) → List FileOutcome
  | [] => []
  | f :: rest =>
    match parse_config_file f with
    | none => []
    | some cfg =>
      (if (validate_config cfg schema).1 then FileOutcome.success (format_as_json cfg)
       else FileOutcome.invalid) :: run_files schema rest

/-! ### Helper lemmas -/

/-- Reading back an overwritten key yields the new value. -/
theorem assocGet_assocSet_self {α : Type} (cfg : List (String × α))
    (key : String) (value : α) : assocGet (assocSet cfg key value) key = some value := by
  induction cfg with
  | nil => simp [assocSet, assocGet]
  | cons p rest ih =>
    obtain ⟨k, v⟩ := p
    by_cases hk : k = key
    · simp [assocSet, assocGet, hk]
    · simp [assocSet, assocGet, hk, ih]

/-- `splitDotsAux` never returns the empty list. -/
theorem splitDotsAux_ne_nil (cs : List Char) (acc : List Char) :
    splitDotsAux cs acc ≠ [] := by
  induction cs generalizing acc with
  | nil => simp [splitDotsAux]
  | cons c rest ih =>
    by_cases hc : c == '.'
    · simp [splitDotsAux, hc]
    · simpa [splitDotsAux, hc] using ih (c :: acc)

/-- `str::split('.')` never returns the empty list. -/
theorem splitDots_ne_nil (s : String) : splitDots s ≠ [] :=
  splitDotsAux_ne_nil s.data []

/-- Re-inserting along the same segment list succeeds whenever the first
insertion did, and the re-inserted value is what a dotted read-back finds. -/
theorem insertGo_again (keys : List String) :
    ∀ (cfg c1 : List (String × ConfigValue)) (v1 v2 : ConfigValue),
      insertGo keys cfg v1 = some c1 →
      ∃ c2, insertGo keys c1 v2 = some c2 ∧ lookupGo keys c2 = some v2 := by
  induction keys with
  | nil => intro cfg c1 v1 v2 h; simp [insertGo] at h
  | cons k tail ih =>
    intro cfg c1 v1 v2 h
    cases tail with
    | nil =>
      simp only [insertGo, Option.some.injEq] at h
      subst h
      exact ⟨assocSet (assocSet cfg k v1) k v2, rfl,
        by simp [lookupGo, assocGet_assocSet_self]⟩
    | cons k2 rest =>
      simp only [insertGo] at h
      cases hchild : (assocGet cfg k).getD (ConfigValue.map []) with
      | str s => rw [hchild] at h; exact absurd h (by simp)
      | bool b => rw [hchild] at h; exact absurd h (by simp)
      | map m =>
        rw [hchild] at h
        have h2 : (match insertGo (k2 :: rest) m v1 with
            | some m2 => some (assocSet cfg k (ConfigValue.map m2))
            | none => (none : Option (List (String × ConfigValue)))) = some c1 := h
        cases hins : insertGo (k2 :: rest) m v1 with
        | none => rw [hins] at h2; exact absurd h2 (by simp)
        | some m2 =>
          rw [hins] at h2
          simp only [Option.some.injEq] at h2
          subst h2
          obtain ⟨m3, hins2, hlook⟩ := ih m m2 v1 v2 hins
          refine ⟨assocSet (assocSet cfg k (ConfigValue.map m2)) k (ConfigValue.map m3), ?_, ?_⟩
          · simp [insertGo, assocGet_assocSet_self, hins2]
          · simp [lookupGo, assocGet_assocSet_self, hlook]

mutual

/-- The serializer only produces strings, booleans and objects. -/
theorem jsonRestricted_formatValue : ∀ v : ConfigValue,
    jsonRestricted (formatValue v) = true
  | ConfigValue.str _ => rfl
  | ConfigValue.bool _ => rfl
  | ConfigValue.map m => by
    simp [formatValue, jsonRestricted, jsonRestrictedMembers_formatMembers m]

/-- The serializer only produces restricted members. -/
theorem jsonRestrictedMembers_formatMembers : ∀ m : List (String × ConfigValue),
    jsonRestrictedMembers (formatMembers m) = true
  | [] => rfl
  | (_, v) :: rest => by
    simp [formatMembers, jsonRestrictedMembers, jsonRestricted_formatValue v,
      jsonRestrictedMembers_formatMembers rest]

end

/-- The member loop is a `List.map`: exactly one member per map entry, keys
preserved, values serialized recursively. -/
theorem formatMembers_eq_map : ∀ m : List (String × ConfigValue),
    formatMembers m = m.map (fun p => (p.1, formatValue p.2))
  | [] => rfl
  | (k, v) :: rest => by simp [formatMembers, formatMembers_eq_map rest]

/-- `eq_ignore_ascii_case` against a literal that is already ASCII-lowercase
holds exactly when the ASCII-lowered text equals the literal's text. -/
theorem eqIgnoreAsciiCase_iff (raw lit : String)
    (hl : lit.data.map asciiLower = lit.data) :
    eqIgnoreAsciiCase raw lit = true ↔ raw.data.map asciiLower = lit.data := by
  unfold eqIgnoreAsciiCase
  rw [hl]
  exact beq_iff_eq

/-! ### Claims -/

/-- C1, counterexample: the tree built from the single line `a.b = x` holds
`String "x"` at the dotted path `a.b` (the spec's traversal finds it), yet the
validator, given the schema entry `(a.b, string)`, reports the key as missing:
`config.get(key)` consults the top-level map only and never traverses. -/
theorem validate_dotted_lookup_cex :
    parse_config_file ["a.b = x"] =
      some [("a", ConfigValue.map [("b", ConfigValue.str "x")])] ∧
    lookupDottedSpec [("a", ConfigValue.map [("b", ConfigValue.str "x")])] "a.b" =
      some (ConfigValue.str "x") ∧
    validate_config [("a", ConfigValue.map [("b", ConfigValue.str "x")])]
      [("a.b", "string")] = (true, [Diagnostic.missingKey "a.b"]) :=
  ⟨rfl, rfl, rfl⟩

/-- C1 (corrected): for every schema entry `(key, expectedType)` the validator
looks `key` up directly in the top-level map and performs no dotted-path
traversal; whenever that flat lookup misses — as it does for the schema key
`a.b` whose value was inserted from the line `a.b = x` — the entry is reported
missing instead of being found and checked. -/
theorem validate_flat_lookup (cfg : List (String × ConfigValue))
    (key ety : String) (h : assocGet cfg key = none) :
    validate_config cfg [(key, ety)] = (true, [Diagnostic.missingKey key]) := by
  simp [validate_config, h]

/-- Witness for `validate_flat_lookup` at the tree built from `a.b = x`. -/
theorem validate_flat_lookup_witness :
    assocGet [("a", ConfigValue.map [("b", ConfigValue.str "x")])] "a.b" = none ∧
    validate_config [("a", ConfigValue.map [("b", ConfigValue.str "x")])]
      [("a.b", "string")] = (true, [Diagnostic.missingKey "a.b"]) :=
  ⟨rfl, validate_flat_lookup _ "a.b" "string" rfl⟩

/-- C2, counterexample: feeding `a.b = 2` and then `a = 1` does not fail —
the final flat insert simply overwrites the `Map` at `a` with the leaf. -/
theorem tree_conflict_reverse_cex :
    parse_config_file ["a.b = 2", "a = 1"] = some [("a", ConfigValue.str "1")] :=
  rfl

/-- C2 (corrected): tree construction fails with the type-conflict panic when
`a = 1` precedes `a.b = 2` (a leaf re-entered as a container), but the reverse
order succeeds: the builder only checks intermediate segments, so the final
segment of `a = 1` silently overwrites the `Map` at `a` with a leaf. -/
theorem tree_conflict_directions :
    parse_config_file ["a = 1", "a.b = 2"] = none ∧
    parse_config_file ["a.b = 2", "a = 1"] = some [("a", ConfigValue.str "1")] :=
  ⟨rfl, rfl⟩

/-- C3, counterexample: the schema line `count = integer` carries a type token
other than `string`/`bool`, yet the load does not fail: the token is stored
verbatim, and the malformed line `@@@` is silently skipped. -/
theorem schema_any_token_cex :
    parseLine "count = integer" = some ("count", "integer") ∧
    load_schema ["count = integer", "@@@", "flag = bool"] =
      [("count", "integer"), ("flag", "bool")] :=
  ⟨rfl, rfl⟩

/-- C3 (corrected): the schema loader applies the same `key = value` pattern
as the config parser and stores whatever token appears on the right verbatim —
no restriction to `string`/`bool` — while a line that does not match the
pattern is silently skipped; loading a readable schema file never fails. -/
theorem schema_any_token (good bad k t : String)
    (hg : parseLine good = some (k, t)) (hb : parseLine bad = none) :
    load_schema [good, bad] = [(k, t)] := by
  simp [load_schema, loadSchemaGo, hg, hb, assocSet]

/-- Witness for `schema_any_token` with the token `integer` and a malformed
line. -/
theorem schema_any_token_witness :
    load_schema ["count = integer", "@@@"] = [("count", "integer")] :=
  schema_any_token "count = integer" "@@@" "count" "integer" rfl rfl

/-- C4, counterexample: `True` is parseable as a boolean literal
case-insensitively, yet a tree holding `String "True"` under the schema entry
`(flag, bool)` fails validation with a type mismatch — no lenient coercion. -/
theorem bool_string_mismatch_cex :
    eqIgnoreAsciiCase "True" "true" = true ∧
    validate_config [("flag", ConfigValue.str "True")] [("flag", "bool")] =
      (false, [Diagnostic.typeMismatch "flag" "bool"]) :=
  ⟨rfl, rfl⟩

/-- C4 (corrected): a key present as `String s` under a schema entry expecting
`bool` is always reported as a type mismatch and fails validation, for every
string `s` — including strings parseable as boolean literals; the validator
has no coercion allowance. -/
theorem bool_string_mismatch (cfg : List (String × ConfigValue))
    (key s : String) (h : assocGet cfg key = some (ConfigValue.str s)) :
    validate_config cfg [(key, "bool")] =
      (false, [Diagnostic.typeMismatch key "bool"]) := by
  simp [validate_config, h, typeMatches]

/-- Witness for `bool_string_mismatch` with the boolean-parseable text
`true`. -/
theorem bool_string_mismatch_witness :
    validate_config [("flag", ConfigValue.str "true")] [("flag", "bool")] =
      (false, [Diagnostic.typeMismatch "flag" "bool"]) :=
  bool_string_mismatch [("flag", ConfigValue.str "true")] "flag" "true" rfl

/-- C5, counterexample: with the conflicting file (`a = 1`, `a.b = 2`) first in
the list, the run produces no outcome at all — in particular none for the
following healthy file — although that file alone would print its JSON: the
type-conflict `expect` panic terminates the whole process, not just the file. -/
theorem conflict_aborts_run_cex :
    parse_config_file ["a = 1", "a.b = 2"] = none ∧
    run_files [] [["a = 1", "a.b = 2"], ["ok = v"]] = [] ∧
    run_files [] [["ok = v"]] =
      [FileOutcome.success (JsonValue.obj [("ok", JsonValue.str "v")])] :=
  ⟨rfl, rfl, rfl⟩

/-- C5 (corrected): a type conflict during tree construction is a panic that
terminates the whole process: the file loop stops, so neither the conflicting
file nor any remaining file in the collected list is processed. -/
theorem conflict_aborts_run (schema : List (String × String))
    (f : List String) (rest : List (List String))
    (h : parse_config_file f = none) :
    run_files schema (f :: rest) = [] := by
  simp [run_files, h]

/-- Witness for `conflict_aborts_run` at the conflicting two-line file. -/
theorem conflict_aborts_run_witness :
    run_files [] [["a = 1", "a.b = 2"], ["ok = v"]] = [] :=
  conflict_aborts_run [] ["a = 1", "a.b = 2"] [["ok = v"]] rfl

/-- C6 (confirmed): a schema key absent from the tree only produces a
missing-key warning and never by itself clears the validity flag — a tree
missing every schema key validates with warnings for all of them — while a
schema key present with a non-matching variant produces a type-mismatch
diagnostic and makes the overall result fail. -/
theorem missing_warns_mismatch_fails :
    (∀ (cfg : List (String × ConfigValue)) (schema : List (String × String)),
        (∀ p ∈ schema, assocGet cfg p.1 = none) →
        validate_config cfg schema =
          (true, schema.map (fun p => Diagnostic.missingKey p.1))) ∧
    (∀ (cfg : List (String × ConfigValue)) (schema : List (String × String))
        (key ety : String) (v : ConfigValue),
        (key, ety) ∈ schema → assocGet cfg key = some v →
        typeMatches ety v = false →
        (validate_config cfg schema).1 = false ∧
        Diagnostic.typeMismatch key ety ∈ (validate_config cfg schema).2) := by
  constructor
  · intro cfg schema h
    induction schema with
    | nil => rfl
    | cons p rest ih =>
      obtain ⟨key, ety⟩ := p
      have hk := h (key, ety) (List.mem_cons_self _ _)
      have hrest := ih (fun q hq => h q (List.mem_cons_of_mem _ hq))
      simp [validate_config, hk, hrest]
  · intro cfg schema key ety v hmem hget hmatch
    induction schema with
    | nil => cases hmem
    | cons p rest ih =>
      obtain ⟨k0, e0⟩ := p
      rcases List.mem_cons.mp hmem with heq | htail
      · injection heq with h1 h2
        subst h1; subst h2
        simp [validate_config, hget, hmatch]
      · have hres := ih htail
        cases hget0 : assocGet cfg k0 with
        | none =>
          simp only [validate_config, hget0]
          exact ⟨hres.1, List.mem_cons_of_mem _ hres.2⟩
        | some v0 =>
          by_cases hm : typeMatches e0 v0 = true
          · simpa only [validate_config, hget0, hm, if_true] using hres
          · have hm' : typeMatches e0 v0 = false := by
              cases hE : typeMatches e0 v0 with
              | true => exact absurd hE hm
              | false => rfl
            simp only [validate_config, hget0, hm', Bool.false_eq_true, if_false]
            exact ⟨trivial, List.mem_cons_of_mem _ hres.2⟩

/-- Witness for `missing_warns_mismatch_fails`: an empty tree under a
one-entry schema validates with a warning; a `Bool` under a `string` entry
fails with a mismatch diagnostic. -/
theorem missing_warns_mismatch_fails_witness :
    validate_config [] [("k", "string")] =
      (true, [Diagnostic.missingKey "k"]) ∧
    (validate_config [("k", ConfigValue.bool true)] [("k", "string")]).1 = false ∧
    Diagnostic.typeMismatch "k" "string" ∈
      (validate_config [("k", ConfigValue.bool true)] [("k", "string")]).2 := by
  refine ⟨missing_warns_mismatch_fails.1 [] [("k", "string")] ?_,
    (missing_warns_mismatch_fails.2 [("k", ConfigValue.bool true)]
      [("k", "string")] "k" "string" (ConfigValue.bool true) ?_ rfl rfl).1,
    (missing_warns_mismatch_fails.2 [("k", ConfigValue.bool true)]
      [("k", "string")] "k" "string" (ConfigValue.bool true) ?_ rfl rfl).2⟩
  · intro p _; rfl
  · exact List.mem_singleton.mpr rfl
  · exact List.mem_singleton.mpr rfl

/-- C7 (confirmed): the coercer yields `Bool true` / `Bool false` exactly when
the ASCII-lowered text is `true` / `false`, and the verbatim `String`
otherwise; and each of the lines `key.sub = TRUE`, `key.sub = True`,
`key.sub = true` builds a tree whose dotted read-back at `key.sub` is
`Bool true`. -/
theorem coerce_bool_literals :
    (∀ raw : String,
        (coerceValue raw = ConfigValue.bool true ↔
          raw.data.map asciiLower = ("true" : String).data) ∧
        (coerceValue raw = ConfigValue.bool false ↔
          raw.data.map asciiLower = ("false" : String).data) ∧
        (raw.data.map asciiLower ≠ ("true" : String).data →
          raw.data.map asciiLower ≠ ("false" : String).data →
          coerceValue raw = ConfigValue.str raw)) ∧
    (parse_config_file ["key.sub = TRUE"] =
        some [("key", ConfigValue.map [("sub", ConfigValue.bool true)])] ∧
     parse_config_file ["key.sub = True"] =
        some [("key", ConfigValue.map [("sub", ConfigValue.bool true)])] ∧
     parse_config_file ["key.sub = true"] =
        some [("key", ConfigValue.map [("sub", ConfigValue.bool true)])] ∧
     lookupDottedSpec [("key", ConfigValue.map [("sub", ConfigValue.bool true)])]
        "key.sub" = some (ConfigValue.bool true)) := by
  constructor
  · intro raw
    have htru := eqIgnoreAsciiCase_iff raw "true" (by decide)
    have hfal := eqIgnoreAsciiCase_iff raw "false" (by decide)
    by_cases h1 : raw.data.map asciiLower = ("true" : String).data
    · have hb1 : eqIgnoreAsciiCase raw "true" = true := htru.mpr h1
      have h2 : raw.data.map asciiLower ≠ ("false" : String).data := by
        rw [h1]; decide
      have hcv : coerceValue raw = ConfigValue.bool true := by
        simp [coerceValue, hb1]
      refine ⟨?_, ?_, fun hc _ => absurd h1 hc⟩
      · simp [hcv, h1]
      · simp [hcv, h2]
    · have hb1 : eqIgnoreAsciiCase raw "true" = false := by
        cases hE : eqIgnoreAsciiCase raw "true" with
        | true => exact absurd (htru.mp hE) h1
        | false => rfl
      by_cases h2 : raw.data.map asciiLower = ("false" : String).data
      · have hb2 : eqIgnoreAsciiCase raw "false" = true := hfal.mpr h2
        have hcv : coerceValue raw = ConfigValue.bool false := by
          simp [coerceValue, hb1, hb2]
        refine ⟨?_, ?_, fun _ hc => absurd h2 hc⟩
        · simp [hcv, h1]
        · simp [hcv, h2]
      · have hb2 : eqIgnoreAsciiCase raw "false" = false := by
          cases hE : eqIgnoreAsciiCase raw "false" with
          | true => exact absurd (hfal.mp hE) h2
          | false => rfl
        have hcv : coerceValue raw = ConfigValue.str raw := by
          simp [coerceValue, hb1, hb2]
        refine ⟨?_, ?_, fun _ _ => hcv⟩
        · simp [hcv, h1]
        · simp [hcv, h2]
  · exact ⟨rfl, rfl, rfl, rfl⟩

/-- Witness for `coerce_bool_literals`: `yes` is neither boolean literal and
stays a verbatim string. -/
theorem coerce_bool_literals_witness :
    coerceValue "yes" = ConfigValue.str "yes" :=
  (coerce_bool_literals.1 "yes").2.2 (by decide) (by decide)

/-- C8, counterexample: a sequence containing two lines with the identical
fully-qualified key `a.b` on which tree construction nevertheless fails — the
intervening line `a = x` overwrites the container at `a` with a leaf, so the
second `a.b` line hits the type-conflict panic; construction does not succeed
for every such sequence. -/
theorem duplicate_key_cex :
    parseLine "a.b = 1" = some ("a.b", "1") ∧
    parseLine "a.b = 2" = some ("a.b", "2") ∧
    parse_config_file ["a.b = 1", "a = x", "a.b = 2"] = none :=
  ⟨rfl, rfl, rfl⟩

/-- C8 (corrected): whenever inserting a fully-qualified dotted key succeeds,
immediately inserting the same key again also succeeds — duplicates raise no
error (and the builder has no warning channel) — and the tree then holds the
later value at that key; only a different intervening line can make
construction fail, as the counterexample shows. -/
theorem duplicate_key_overwrites (cfg c1 : List (String × ConfigValue))
    (key : String) (v1 v2 : ConfigValue)
    (h : insert_config_value cfg key v1 = some c1) :
    ∃ c2, insert_config_value c1 key v2 = some c2 ∧
      lookupDottedSpec c2 key = some v2 :=
  insertGo_again (splitDots key) cfg c1 v1 v2 h

/-- Witness for `duplicate_key_overwrites`: re-inserting `a.b` after a first
successful insert. -/
theorem duplicate_key_overwrites_witness :
    ∃ c2, insert_config_value
        [("a", ConfigValue.map [("b", ConfigValue.str "1")])] "a.b"
        (ConfigValue.str "2") = some c2 ∧
      lookupDottedSpec c2 "a.b" = some (ConfigValue.str "2") :=
  duplicate_key_overwrites [] [("a", ConfigValue.map [("b", ConfigValue.str "1")])]
    "a.b" (ConfigValue.str "1") (ConfigValue.str "2") rfl

/-- C9 (confirmed): keys with consecutive, trailing or leading dots match the
key pattern and are accepted, and the builder creates entries named by the
empty-string segment at the corresponding levels of the tree. -/
theorem empty_segments_accepted :
    parseLine "a..b = x" = some ("a..b", "x") ∧
    parse_config_file ["a..b = x"] =
      some [("a", ConfigValue.map
        [("", ConfigValue.map [("b", ConfigValue.str "x")])])] ∧
    parse_config_file ["a. = y"] =
      some [("a", ConfigValue.map [("", ConfigValue.str "y")])] ∧
    parse_config_file [".a = z"] =
      some [("", ConfigValue.map [("a", ConfigValue.str "z")])] :=
  ⟨rfl, rfl, rfl, rfl⟩

/-- C10 (confirmed): the serializer emits only objects, strings and booleans —
never null, numbers or arrays — with exactly one member per map entry (the
object's member list is the entry-wise image of the map) and nesting that
mirrors the tree: `String` leaves become JSON strings, `Bool` leaves JSON
booleans, and `Map` nodes nested objects serialized the same way. -/
theorem format_as_json_shape (cfg : List (String × ConfigValue)) :
    jsonRestricted (format_as_json cfg) = true ∧
    format_as_json cfg =
      JsonValue.obj (cfg.map (fun p => (p.1, formatValue p.2))) ∧
    (∀ s, formatValue (ConfigValue.str s) = JsonValue.str s) ∧
    (∀ b, formatValue (ConfigValue.bool b) = JsonValue.bool b) ∧
    (∀ m, formatValue (ConfigValue.map m) = format_as_json m) := by
  refine ⟨?_, ?_, fun s => rfl, fun b => rfl, fun m => rfl⟩
  · simp [format_as_json, jsonRestricted, jsonRestrictedMembers_formatMembers]
  · simp [format_as_json, formatMembers_eq_map]
